import Mathlib

/-!
The package dnscache: a DNS resolution cache with periodic refresh.

A shallow embedding of `src/dnscache/dnscache.go`.

* Go values of type `error` are modelled by `GoError` (a message and an optional
  wrapped cause, as produced by `fmt.Errorf` with and without the `%w` verb);
  a Go return pair `(v, err)` is a Lean pair whose second component is
  `none` for `nil`.
* `sync.Map` (keys and values are always strings in this program) is an
  association list with unique keys.
* The external collaborators (`net.ResolveIPAddr`, `net.Dial`, the registered
  custom resolver) are black boxes.  Each is a function of the list of calls it has
  received so far, so that its answers may change from one call to the next, and
  every call is recorded in `World`.
* `time.Ticker` is reduced to its `stopped` flag; by the contract of the
  library a stopped ticker sends no tick (`Ticker.sends`), and `Stop` neither
  closes nor empties the channel `C`.
* `Instance` is a cache together with the goroutine started by `NewDnsCache`:
  the channel of the ticker and how far the loop of `freshDns` has got.  Calls
  of methods are single steps; a sweep is interleaved with them one visited key
  at a time, so that a method can be called while a sweep is in progress.
* The `httpClient` field and the two methods that only forward to it carry no
  logic and are left out.
-/

namespace dnscache

/-! ## Go errors -/

/-- Go `error` values: `plain` is an error without a cause, `wrapped` an error
whose `Unwrap` yields `cause`. -/
inductive GoError where
  | plain (msg : String)
  | wrapped (msg : String) (cause : GoError)
  deriving DecidableEq, Repr

/-- The method `Error()` of a Go error: its message. -/
def GoError.Error : GoError → String
  | .plain m => m
  | .wrapped m _ => m

/-- The method `Unwrap()` of a Go error: its cause, if it has one. -/
def GoError.Unwrap : GoError → Option GoError
  | .plain _ => none
  | .wrapped _ c => some c

/-- The call `fmt.Errorf(pre + "%w", err)`: the message is `pre` followed by the
message of `err`, and the result wraps `err`. -/
def fmt_Errorf_w (pre : String) (err : GoError) : GoError :=
  .wrapped (pre ++ err.Error) err

/-- The call `fmt.Errorf(pre + "%s", s)`: an error without a cause. -/
def fmt_Errorf_s (pre : String) (s : String) : GoError :=
  .plain (pre ++ s)

/-! ## External collaborators -/

/-- The type `net.IP`, represented by the text that its method `String()` renders. -/
structure IP where
  text : String
  deriving DecidableEq, Repr

/-- The method `String()` of `net.IP`. -/
def IP.String (ip : IP) : String := ip.text

/-- The type `net.IPAddr`: only the field `IP` is read. -/
structure IPAddr where
  IP : IP
  deriving DecidableEq, Repr

/-- The type `net.Conn`: an open connection, identified by a handle. -/
structure Conn where
  fd : Nat
  deriving DecidableEq, Repr

/-- The shape of a custom resolver: `func(host string) (ip string, err error)`.
The first argument is the list of hosts it was called with before. -/
abbrev Resolver := List String → String → String × Option GoError

/-- The network primitives used by the program.  Each takes the list of calls
made to it before (oldest first), then the arguments of the Go function. -/
structure Env where
  net_ResolveIPAddr : List (String × String) → String → String → Except GoError IPAddr
  net_Dial : List (String × String) → String → String → Option Conn × Option GoError

/-- The record of what the program has done to the outside so far.
`resolveIpReturns` records every completed call of `resolveIp` with its
returned pair. -/
structure World where
  customCalls : List String
  resolveCalls : List (String × String)
  dialCalls : List (String × String)
  resolveIpReturns : List (String × String × Option GoError)
  deriving DecidableEq, Repr

/-- The world before any call. -/
def World.init : World := ⟨[], [], [], []⟩

/-! ## `sync.Map` and `time.Ticker` -/

/-- A `sync.Map` from strings to strings. -/
abbrev SyncMap := AList (fun _ : String => String)

/-- The method `Load`: the value stored for `key`, if any. -/
def SyncMap.Load (m : SyncMap) (key : String) : Option String := m.lookup key

/-- The method `Store`: sets the value for `key`. -/
def SyncMap.Store (m : SyncMap) (key value : String) : SyncMap := m.insert key value

/-- The method `Delete`: removes the entry for `key`. -/
def SyncMap.Delete (m : SyncMap) (key : String) : SyncMap := m.erase key

/-- The method `Range`, run in a state `σ` that holds the map (read through `cur`).  The keys are
visited in the order `order`, which the map chooses; a key that is no longer
present when its turn comes is not visited, and the walk ends as soon as `f`
returns `false`. -/
def SyncMap.Range {σ : Type} (cur : σ → SyncMap)
    (f : String → String → σ → Bool × σ) : List String → σ → σ
  | [], st => st
  | k :: ks, st =>
    match (cur st).Load k with
    | none => SyncMap.Range cur f ks st
    | some v =>
      match f k v st with
      | (true, st1) => SyncMap.Range cur f ks st1
      | (false, st1) => st1

/-- The type `time.Ticker`: whether `Stop` has been called on it. -/
structure Ticker where
  stopped : Bool
  deriving DecidableEq, Repr

/-- The method `Stop` of a ticker. -/
def Ticker.Stop (_t : Ticker) : Ticker := ⟨true⟩

/-- Whether the ticker sends a tick on its channel `C` when a period elapses.
The library documents `Stop` by "After Stop, no more ticks will be sent". -/
def Ticker.sends (t : Ticker) : Bool := !t.stopped

/-! ## The cache -/

/-- The struct `DnsCache`. -/
structure DnsCache where
  cache : SyncMap
  freshInterval : Int
  timer : Ticker
  customResolver : Option Resolver

/-- The result of a method: the Go return value, then the receiver and the
world after the call. -/
abbrev Out (α : Type) := α × DnsCache × World

/-- The constructor `NewDnsCache`: `time.NewTicker` panics on an interval that is not positive
(`none`); otherwise the cache is empty, the ticker runs and no custom resolver
is registered. -/
def NewDnsCache (freshInterval : Int) : Option DnsCache :=
  if freshInterval ≤ 0 then none
  else some ⟨∅, freshInterval, ⟨false⟩, none⟩

/-- The method `SetCustomeResolver`; a `nil` function is `none`. -/
def SetCustomeResolver (d : DnsCache) (f : Option Resolver) : DnsCache :=
  { d with customResolver := f }

/-- Lines 72-78 of `resolveIp`: the system resolver, restricted to IPv4. -/
def resolveIpSystem (env : Env) (d : DnsCache) (w : World) (host : String) :
    Out (String × Option GoError) :=
  let w1 := { w with resolveCalls := w.resolveCalls ++ [("ip4", host)] }
  match env.net_ResolveIPAddr w.resolveCalls "ip4" host with
  | .error err =>
    (("", some (fmt_Errorf_w ("resolve ip of " ++ host ++ " error:") err)), d, w1)
  | .ok ip =>
    let ips := ip.IP.String
    ((ips, none), { d with cache := d.cache.Store host ips }, w1)

/-- The body of `resolveIp`. -/
def resolveIpBody (env : Env) (d : DnsCache) (w : World) (host : String) :
    Out (String × Option GoError) :=
  match d.customResolver with
  | some f =>
    let w1 := { w with customCalls := w.customCalls ++ [host] }
    match f w.customCalls host with
    | (ip, none) => ((ip, none), { d with cache := d.cache.Store host ip }, w1)
    | (_, some _) => resolveIpSystem env d w1 host
  | none => resolveIpSystem env d w host

/-- The method `resolveIp`: the body, and the record of the returned pair. -/
def resolveIp (env : Env) (d : DnsCache) (w : World) (host : String) :
    Out (String × Option GoError) :=
  match resolveIpBody env d w host with
  | (r, d1, w1) =>
    (r, d1, { w1 with resolveIpReturns := w1.resolveIpReturns ++ [(host, r)] })

/-- The method `Get`. -/
def Get (env : Env) (d : DnsCache) (w : World) (host : String) :
    Out (String × Option GoError) :=
  match d.cache.Load host with
  | some r => ((r, none), d, w)
  | none => resolveIp env d w host

/-- The method `Clear`. -/
def Clear (d : DnsCache) (host : String) : DnsCache :=
  { d with cache := d.cache.Delete host }

/-- The method `Destroy`. -/
def Destroy (d : DnsCache) : DnsCache :=
  { d with timer := d.timer.Stop }

/-- The function passed to `Range` in `freshDns`. -/
def freshDnsVisit (env : Env) (key _value : String) (st : DnsCache × World) :
    Bool × DnsCache × World :=
  match resolveIp env st.1 st.2 key with
  | ((_, some _), d1, w1) => (true, d1, w1)
  | ((ip, none), d1, w1) => (true, { d1 with cache := d1.cache.Store key ip }, w1)

/-- One round of the loop of `freshDns`: the sweep run for one received tick. -/
def freshDnsSweep (env : Env) (order : List String) (st : DnsCache × World) :
    DnsCache × World :=
  SyncMap.Range (fun s => s.1.cache) (freshDnsVisit env) order st

/-- One period of the ticker met by a loop of `freshDns` that waits on an
empty channel and is left alone until its sweep ends: the loop runs one sweep for
the tick that the ticker sends, if it sends one. -/
def tick (env : Env) (order : List String) (st : DnsCache × World) : DnsCache × World :=
  if st.1.timer.sends then freshDnsSweep env order st else st

/-! ## The dial function -/

/-- The pieces of `s` between the occurrences of `sep`. -/
def splitChars (sep : Char) : List Char → List (List Char)
  | [] => [[]]
  | c :: cs =>
    if c = sep then [] :: splitChars sep cs
    else
      match splitChars sep cs with
      | [] => [[c]]
      | p :: ps => (c :: p) :: ps

/-- The call `strings.Split(s, sep)` for a separator of one character. -/
def strings_Split (s : String) (sep : Char) : List String :=
  (splitChars sep s.toList).map String.mk

/-- The method `dialFunc`; the `network` argument is not used. -/
def dialFunc (env : Env) (d : DnsCache) (w : World) (_network addr : String) :
    Out (Option Conn × Option GoError) :=
  match strings_Split addr ':' with
  | [host, port] =>
    match Get env d w host with
    | ((_, some err), d1, w1) => ((none, some (fmt_Errorf_w "resolve ip error:" err)), d1, w1)
    | ((ip, none), d1, w1) =>
      let target := ip ++ ":" ++ port
      (env.net_Dial w1.dialCalls "tcp4" target, d1,
        { w1 with dialCalls := w1.dialCalls ++ [("tcp4", target)] })
  | _ => ((none, some (fmt_Errorf_s "invaild addr:" addr)), d, w)

/-! ## A cache and its refresh goroutine -/

/-- A cache instance at run time: the receiver `d`, the world `w`, whether a
tick waits in the channel `d.timer.C` (its capacity is one), and the goroutine
`freshDns`: `none` while it waits on the channel, `some ks` while it is inside
`Range` with the keys `ks` still to visit. -/
structure Instance where
  d : DnsCache
  w : World
  C : Bool
  loop : Option (List String)

/-- The instance right after `NewDnsCache` returned `d`: nothing in the channel,
the goroutine waiting. -/
def Instance.start (d : DnsCache) (w : World) : Instance := ⟨d, w, false, none⟩

/-- What can happen to an instance: a call of one of its methods, a period
of its ticker elapsing, the loop of `freshDns` receiving from the channel (with
the order in which `Range` will walk the map), or the loop visiting one key. -/
inductive Op where
  | Get (host : String)
  | Clear (host : String)
  | SetCustomeResolver (f : Option Resolver)
  | Destroy
  | dial (network addr : String)
  | period
  | recv (order : List String)
  | visit

/-- Whether an operation is a period of the ticker. -/
def Op.isPeriod : Op → Bool
  | .period => true
  | _ => false

/-- Whether an operation is a call of a method (and not a step of the ticker
or of the goroutine). -/
def Op.isMethod : Op → Bool
  | .period => false
  | .recv _ => false
  | .visit => false
  | _ => true

/-- Whether an operation is `Clear host`. -/
def Op.isClear (host : String) : Op → Bool
  | .Clear h => h = host
  | _ => false

/-- The receive of `for _ = range d.timer.C`: a waiting loop takes the tick out of the
channel, if there is one, and enters `Range`; otherwise nothing happens. -/
def freshDnsRecv (order : List String) (s : Instance) : Instance :=
  match s.loop with
  | some _ => s
  | none => if s.C then { s with C := false, loop := some order } else s

/-- One step of the loop of `freshDns` inside `Range`: the next key is visited
(or passed over when it has no entry any more); when no key is left, or the
visit returned `false`, `Range` returns and the loop waits on the channel again. -/
def freshDnsStep (env : Env) (s : Instance) : Instance :=
  match s.loop with
  | none => s
  | some [] => { s with loop := none }
  | some (k :: ks) =>
    match s.d.cache.Load k with
    | none => { s with loop := some ks }
    | some v =>
      match freshDnsVisit env k v (s.d, s.w) with
      | (true, d1, w1) => { s with d := d1, w := w1, loop := some ks }
      | (false, d1, w1) => { s with d := d1, w := w1, loop := none }

/-- The effect of one operation on an instance. -/
def step (env : Env) (s : Instance) : Op → Instance
  | .Get host => { s with d := (Get env s.d s.w host).2.1, w := (Get env s.d s.w host).2.2 }
  | .Clear host => { s with d := Clear s.d host }
  | .SetCustomeResolver f => { s with d := SetCustomeResolver s.d f }
  | .Destroy => { s with d := Destroy s.d }
  | .dial network addr =>
    { s with d := (dialFunc env s.d s.w network addr).2.1,
             w := (dialFunc env s.d s.w network addr).2.2 }
  | .period => { s with C := s.C || s.d.timer.sends }
  | .recv order => freshDnsRecv order s
  | .visit => freshDnsStep env s

/-- The effect of a sequence of operations, in order. -/
def run (env : Env) (ops : List Op) (s : Instance) : Instance :=
  ops.foldl (step env) s

/-! ## Instances used to exercise the theorems -/

/-- A cache that holds one entry, built by a store into the empty map. -/
def oneEntry : DnsCache :=
  ⟨(∅ : SyncMap).Store "example.test" "1.2.3.4", 1, ⟨false⟩, none⟩

/-- A system resolver that knows no host, and a dialer that refuses. -/
def deadEnv : Env :=
  ⟨fun _ _ _ => .error (.plain "no such host"),
   fun _ _ _ => (none, some (.plain "connection refused"))⟩

/-- A system resolver that answers "1.2.3.4" on its first call and "5.6.7.8"
afterwards for the IPv4 address of "example.test", and knows no other host; the
dialer hands out the number of earlier connect attempts as the connection. -/
def twoAnswersEnv : Env :=
  ⟨fun calls network host =>
      if network = "ip4" ∧ host = "example.test" then
        (match calls with
          | [] => .ok ⟨⟨"1.2.3.4"⟩⟩
          | _ :: _ => .ok ⟨⟨"5.6.7.8"⟩⟩)
      else .error (.plain "no such host"),
   fun calls _ _ => (some ⟨calls.length⟩, none)⟩

/-- A custom resolver that knows "example.test" only. -/
def fixedResolver : Resolver := fun _ host =>
  if host = "example.test" then ("9.9.9.9", none)
  else ("", some (.plain "custom: unknown host"))

/-- A system resolver that maps every host to itself, as for hosts that are
already addresses; the dialer refuses every connection. -/
def echoEnv : Env :=
  ⟨fun _ _ host => .ok ⟨⟨host⟩⟩,
   fun _ _ _ => (none, some (.plain "connection refused"))⟩

/-- An empty cache with a running ticker and no custom resolver. -/
def emptyCache : DnsCache := ⟨∅, 1, ⟨false⟩, none⟩

/-- A cache with two entries; the system resolver of `twoAnswersEnv` knows
the first host and not the second. -/
def twoEntries : DnsCache :=
  ⟨((∅ : SyncMap).Store "gone.test" "6.6.6.6").Store "example.test" "0.0.0.0", 1, ⟨false⟩, none⟩

/-- The scenario of the refresh test, after the first `Get "example.test"` on a
new cache. -/
def scenarioAfterGet : DnsCache × World :=
  (Get twoAnswersEnv emptyCache World.init "example.test").2

/-- The scenario of the refresh test, after one period of the ticker. -/
def scenarioAfterTick : DnsCache × World :=
  tick twoAnswersEnv scenarioAfterGet.1.cache.keys scenarioAfterGet

/-- A new cache on which "example.test" was looked up, then a period elapsed
and the loop of `freshDns` received the tick: a sweep over "example.test" is in
progress and has not visited its key yet. -/
def sweeping : Instance :=
  run twoAnswersEnv [.Get "example.test", .period, .recv ["example.test"]]
    (Instance.start emptyCache World.init)

/-- The instance `sweeping` after `Destroy` has returned. -/
def sweepingDestroyed : Instance := step twoAnswersEnv sweeping .Destroy

/-! ## Splitting an address -/

theorem splitChars_length (sep : Char) (l : List Char) :
    (splitChars sep l).length = l.count sep + 1 := by
  induction l with
  | nil => simp [splitChars]
  | cons c cs ih =>
    unfold splitChars
    by_cases h : c = sep
    · subst h; simp [ih]
    · rw [if_neg h]
      cases hs : splitChars sep cs with
      | nil => rw [hs] at ih; simp at ih
      | cons p ps =>
        rw [hs] at ih
        simp only [List.length_cons] at ih ⊢
        rw [List.count_cons_of_ne (Ne.symm h)]
        exact ih

theorem splitChars_of_not_mem (sep : Char) (l : List Char) (h : sep ∉ l) :
    splitChars sep l = [l] := by
  induction l with
  | nil => rfl
  | cons c cs ih =>
    have hc : c ≠ sep := fun e => h (by simp [e])
    have hcs : sep ∉ cs := fun e => h (by simp [e])
    simp [splitChars, hc, ih hcs]

theorem splitChars_append (sep : Char) (l1 l2 : List Char) (h : sep ∉ l1) :
    splitChars sep (l1 ++ sep :: l2) = l1 :: splitChars sep l2 := by
  induction l1 with
  | nil => simp [splitChars]
  | cons c cs ih =>
    have hc : c ≠ sep := fun e => h (by simp [e])
    have hcs : sep ∉ cs := fun e => h (by simp [e])
    simp [splitChars, hc, ih hcs]

theorem exists_split_of_count_one (sep : Char) (l : List Char) (h : l.count sep = 1) :
    ∃ l1 l2, l = l1 ++ sep :: l2 ∧ sep ∉ l1 ∧ sep ∉ l2 := by
  induction l with
  | nil => simp at h
  | cons c cs ih =>
    by_cases hc : c = sep
    · subst hc
      simp at h
      exact ⟨[], cs, rfl, by simp, List.count_eq_zero.mp h⟩
    · rw [List.count_cons_of_ne (Ne.symm hc)] at h
      obtain ⟨l1, l2, e, h1, h2⟩ := ih h
      refine ⟨c :: l1, l2, by simp [e], ?_, h2⟩
      simp [h1, Ne.symm hc]

theorem strings_Split_pair (host port : String) (h1 : ':' ∉ host.toList) (h2 : ':' ∉ port.toList) :
    strings_Split (host ++ ":" ++ port) ':' = [host, port] := by
  have : (host ++ ":" ++ port).toList = host.toList ++ ':' :: port.toList := by
    simp [String.toList]
  rw [strings_Split, this, splitChars_append _ _ _ h1, splitChars_of_not_mem _ _ h2]
  rfl

theorem exists_pair_of_count_one (addr : String) (h : addr.toList.count ':' = 1) :
    ∃ host port, addr = host ++ ":" ++ port ∧ strings_Split addr ':' = [host, port] := by
  obtain ⟨l1, l2, e, h1, h2⟩ := exists_split_of_count_one ':' addr.toList h
  have hadd : addr = String.mk l1 ++ ":" ++ String.mk l2 := by
    apply String.ext
    simpa [String.toList] using e
  refine ⟨String.mk l1, String.mk l2, hadd, ?_⟩
  rw [hadd]
  exact strings_Split_pair _ _ h1 h2

/-! ## What a lookup leaves alone -/

theorem resolveIpSystem_dialCalls (env : Env) (d : DnsCache) (w : World) (host : String) :
    (resolveIpSystem env d w host).2.2.dialCalls = w.dialCalls := by
  unfold resolveIpSystem
  split <;> rfl

theorem resolveIpBody_dialCalls (env : Env) (d : DnsCache) (w : World) (host : String) :
    (resolveIpBody env d w host).2.2.dialCalls = w.dialCalls := by
  unfold resolveIpBody
  split
  · split
    · rfl
    · exact resolveIpSystem_dialCalls env d _ host
  · exact resolveIpSystem_dialCalls env d w host

theorem resolveIp_dialCalls (env : Env) (d : DnsCache) (w : World) (host : String) :
    (resolveIp env d w host).2.2.dialCalls = w.dialCalls :=
  resolveIpBody_dialCalls env d w host

theorem Get_dialCalls (env : Env) (d : DnsCache) (w : World) (host : String) :
    (Get env d w host).2.2.dialCalls = w.dialCalls := by
  unfold Get
  cases d.cache.Load host with
  | none => exact resolveIp_dialCalls env d w host
  | some r => rfl

theorem dialFunc_of_Get_ok (env : Env) (d : DnsCache) (w : World) (network addr : String)
    (host port ip : String) (d1 : DnsCache) (w1 : World)
    (hsp : strings_Split addr ':' = [host, port])
    (hG : Get env d w host = ((ip, none), d1, w1)) :
    dialFunc env d w network addr =
      (env.net_Dial w1.dialCalls "tcp4" (ip ++ ":" ++ port), d1,
        { w1 with dialCalls := w1.dialCalls ++ [("tcp4", ip ++ ":" ++ port)] }) := by
  simp [dialFunc, hsp, hG]

theorem dialFunc_of_Get_error (env : Env) (d : DnsCache) (w : World) (network addr : String)
    (host port x : String) (err : GoError) (d1 : DnsCache) (w1 : World)
    (hsp : strings_Split addr ':' = [host, port])
    (hG : Get env d w host = ((x, some err), d1, w1)) :
    dialFunc env d w network addr =
      ((none, some (.wrapped ("resolve ip error:" ++ err.Error) err)), d1, w1) := by
  simp [dialFunc, hsp, hG, fmt_Errorf_w]

/-! ## The ticker under the operations -/

theorem resolveIpSystem_timer (env : Env) (d : DnsCache) (w : World) (host : String) :
    (resolveIpSystem env d w host).2.1.timer = d.timer := by
  unfold resolveIpSystem
  split <;> rfl

theorem resolveIp_timer (env : Env) (d : DnsCache) (w : World) (host : String) :
    (resolveIp env d w host).2.1.timer = d.timer := by
  show (resolveIpBody env d w host).2.1.timer = d.timer
  unfold resolveIpBody
  split
  · split
    · rfl
    · exact resolveIpSystem_timer env d _ host
  · exact resolveIpSystem_timer env d w host

theorem Get_timer (env : Env) (d : DnsCache) (w : World) (host : String) :
    (Get env d w host).2.1.timer = d.timer := by
  unfold Get
  split
  · rfl
  · exact resolveIp_timer env d w host

theorem dialFunc_timer (env : Env) (d : DnsCache) (w : World) (network addr : String) :
    (dialFunc env d w network addr).2.1.timer = d.timer := by
  unfold dialFunc
  split
  · rename_i host port _
    have hG := Get_timer env d w host
    rcases hg : Get env d w host with ⟨⟨ip, _ | err⟩, d1, w1⟩ <;>
      rw [hg] at hG <;> simpa using hG
  · rfl

theorem freshDnsVisit_timer (env : Env) (key value : String) (st : DnsCache × World) :
    (freshDnsVisit env key value st).2.1.timer = st.1.timer := by
  have h := resolveIp_timer env st.1 st.2 key
  unfold freshDnsVisit
  rcases hr : resolveIp env st.1 st.2 key with ⟨⟨ip, _ | err⟩, d1, w1⟩ <;>
    rw [hr] at h <;> simpa using h

theorem freshDnsStep_timer (env : Env) (s : Instance) :
    (freshDnsStep env s).d.timer = s.d.timer := by
  unfold freshDnsStep
  split
  · rfl
  · rfl
  · rename_i k ks _
    split
    · rfl
    · rename_i v _
      have h := freshDnsVisit_timer env k v (s.d, s.w)
      rcases hv : freshDnsVisit env k v (s.d, s.w) with ⟨_ | _, d1, w1⟩ <;>
        rw [hv] at h <;> simpa using h

theorem freshDnsRecv_d (order : List String) (s : Instance) :
    (freshDnsRecv order s).d = s.d := by
  unfold freshDnsRecv
  split
  · rfl
  · split <;> rfl

theorem step_period_of_stopped (env : Env) (s : Instance) (h : s.d.timer.stopped = true) :
    step env s .period = s := by
  cases s
  simp_all [step, Ticker.sends]

theorem step_stopped (env : Env) (s : Instance) (op : Op) (h : s.d.timer.stopped = true) :
    (step env s op).d.timer.stopped = true ∧ (op.isPeriod = true → step env s op = s) := by
  cases op with
  | Get host => exact ⟨by simpa [step, Get_timer] using h, by simp [Op.isPeriod]⟩
  | Clear host => exact ⟨by simpa [step, Clear] using h, by simp [Op.isPeriod]⟩
  | SetCustomeResolver f =>
    exact ⟨by simpa [step, SetCustomeResolver] using h, by simp [Op.isPeriod]⟩
  | Destroy => exact ⟨by simp [step, Destroy, Ticker.Stop], by simp [Op.isPeriod]⟩
  | dial network addr => exact ⟨by simpa [step, dialFunc_timer] using h, by simp [Op.isPeriod]⟩
  | period => exact ⟨by simpa [step] using h, fun _ => step_period_of_stopped env s h⟩
  | recv order => exact ⟨by simpa [step, freshDnsRecv_d] using h, by simp [Op.isPeriod]⟩
  | visit => exact ⟨by simpa [step, freshDnsStep_timer] using h, by simp [Op.isPeriod]⟩

theorem run_stopped (env : Env) (ops : List Op) (s : Instance)
    (h : s.d.timer.stopped = true) :
    (run env ops s).d.timer.stopped = true ∧
      run env ops s = run env (ops.filter fun op => !op.isPeriod) s := by
  induction ops generalizing s with
  | nil => exact ⟨h, rfl⟩
  | cons op ops ih =>
    have hs := step_stopped env s op h
    cases hop : op.isPeriod with
    | true =>
      have he := hs.2 hop
      have := ih s h
      simpa [run, List.filter, hop, he] using this
    | false =>
      have := ih (step env s op) hs.1
      simpa [run, List.filter, hop] using this

/-! ## After `Destroy`, with no sweep in progress and no tick waiting -/

theorem step_idle (env : Env) (s : Instance) (op : Op) (h : s.d.timer.stopped = true)
    (hC : s.C = false) (hl : s.loop = none) :
    ((step env s op).d.timer.stopped = true ∧ (step env s op).C = false ∧
      (step env s op).loop = none) ∧
    (op.isMethod = false → step env s op = s) := by
  refine ⟨⟨(step_stopped env s op h).1, ?_, ?_⟩, ?_⟩
  · cases op <;> simp [step, freshDnsRecv, freshDnsStep, Ticker.sends, hC, hl, h]
  · cases op <;> simp [step, freshDnsRecv, freshDnsStep, hC, hl]
  · intro hm
    cases op with
    | period => exact step_period_of_stopped env s h
    | recv order => simp [step, freshDnsRecv, hC, hl]
    | visit => simp [step, freshDnsStep, hl]
    | _ => simp [Op.isMethod] at hm

theorem run_idle (env : Env) (ops : List Op) (s : Instance) (h : s.d.timer.stopped = true)
    (hC : s.C = false) (hl : s.loop = none) :
    run env ops s = run env (ops.filter Op.isMethod) s := by
  induction ops generalizing s with
  | nil => rfl
  | cons op ops ih =>
    obtain ⟨⟨h1, h2, h3⟩, hno⟩ := step_idle env s op h hC hl
    cases hop : op.isMethod with
    | true =>
      have := ih (step env s op) h1 h2 h3
      simpa [run, List.filter, hop] using this
    | false =>
      have he := hno hop
      have := ih s h hC hl
      simpa [run, List.filter, hop, he] using this

/-! ## One sweep of the refresh loop -/

theorem resolveIpSystem_cases (env : Env) (d : DnsCache) (w : World) (host : String) :
    (resolveIpSystem env d w host).2.2.resolveIpReturns = w.resolveIpReturns ∧
    (((resolveIpSystem env d w host).1.2 = none ∧
        (resolveIpSystem env d w host).2.1.cache =
          d.cache.Store host (resolveIpSystem env d w host).1.1) ∨
      ((resolveIpSystem env d w host).1.2 ≠ none ∧
        (resolveIpSystem env d w host).2.1.cache = d.cache)) := by
  unfold resolveIpSystem
  split
  · exact ⟨rfl, Or.inr ⟨by simp, rfl⟩⟩
  · exact ⟨rfl, Or.inl ⟨rfl, rfl⟩⟩

theorem resolveIpBody_cases (env : Env) (d : DnsCache) (w : World) (host : String) :
    (resolveIpBody env d w host).2.2.resolveIpReturns = w.resolveIpReturns ∧
    (((resolveIpBody env d w host).1.2 = none ∧
        (resolveIpBody env d w host).2.1.cache =
          d.cache.Store host (resolveIpBody env d w host).1.1) ∨
      ((resolveIpBody env d w host).1.2 ≠ none ∧
        (resolveIpBody env d w host).2.1.cache = d.cache)) := by
  unfold resolveIpBody
  split
  · split
    · exact ⟨rfl, Or.inl ⟨rfl, rfl⟩⟩
    · exact resolveIpSystem_cases env d _ host
  · exact resolveIpSystem_cases env d w host

theorem freshDnsVisit_cases (env : Env) (key value : String) (st : DnsCache × World) :
    (freshDnsVisit env key value st).1 = true ∧
    ∃ r : String × Option GoError,
      (freshDnsVisit env key value st).2.2.resolveIpReturns =
        st.2.resolveIpReturns ++ [(key, r)] ∧
      ((r.2 = none ∧ (freshDnsVisit env key value st).2.1.cache = st.1.cache.Store key r.1) ∨
        (r.2 ≠ none ∧ (freshDnsVisit env key value st).2.1.cache = st.1.cache)) := by
  obtain ⟨hlog, hc⟩ := resolveIpBody_cases env st.1 st.2 key
  unfold freshDnsVisit resolveIp
  rcases hb : resolveIpBody env st.1 st.2 key with ⟨⟨ip, _ | err⟩, d1, w1⟩
  · rw [hb] at hlog hc
    refine ⟨rfl, (ip, none), ?_, Or.inl ⟨rfl, ?_⟩⟩
    · simp only at hlog ⊢
      rw [hlog]
    · rcases hc with ⟨_, hc⟩ | ⟨hne, _⟩
      · simp only at hc ⊢
        rw [hc]
        exact AList.insert_insert _
      · exact absurd rfl hne
  · rw [hb] at hlog hc
    refine ⟨rfl, (ip, some err), ?_, Or.inr ⟨by simp, ?_⟩⟩
    · simp only at hlog ⊢
      rw [hlog]
    · rcases hc with ⟨he, _⟩ | ⟨_, hc⟩
      · simp at he
      · exact hc

theorem freshDnsSweep_cons (env : Env) (k value : String) (ks : List String)
    (st : DnsCache × World) (h : st.1.cache.Load k = some value) :
    freshDnsSweep env (k :: ks) st = freshDnsSweep env ks (freshDnsVisit env k value st).2 := by
  have hflag := (freshDnsVisit_cases env k value st).1
  rcases hv : freshDnsVisit env k value st with ⟨b, st1⟩
  rw [hv] at hflag
  simp only at hflag
  subst hflag
  simp [freshDnsSweep, SyncMap.Range, h, hv]

theorem freshDnsSweep_visits (env : Env) (ks : List String) :
    ∀ st : DnsCache × World, (∀ k ∈ ks, k ∈ st.1.cache) → ks.Nodup →
    ∃ visits : List (String × String × Option GoError),
      (freshDnsSweep env ks st).2.resolveIpReturns = st.2.resolveIpReturns ++ visits ∧
      visits.map Prod.fst = ks ∧
      (∀ k, k ∈ (freshDnsSweep env ks st).1.cache ↔ k ∈ st.1.cache) ∧
      (∀ k, k ∉ ks → (freshDnsSweep env ks st).1.cache.Load k = st.1.cache.Load k) ∧
      (∀ v ∈ visits,
        (v.2.2 = none → (freshDnsSweep env ks st).1.cache.Load v.1 = some v.2.1) ∧
        (v.2.2 ≠ none → (freshDnsSweep env ks st).1.cache.Load v.1 = st.1.cache.Load v.1)) := by
  induction ks with
  | nil =>
    intro st _ _
    exact ⟨[], by simp [freshDnsSweep, SyncMap.Range], rfl, fun _ => Iff.rfl,
      fun _ _ => rfl, by simp⟩
  | cons k ks ih =>
    intro st hmem hnd
    have hk : k ∈ st.1.cache := hmem k (List.mem_cons_self _ _)
    obtain ⟨value, hval⟩ : ∃ value, st.1.cache.Load k = some value := by
      cases hl : st.1.cache.Load k with
      | none => exact absurd hk (AList.lookup_eq_none.mp hl)
      | some value => exact ⟨value, rfl⟩
    rw [freshDnsSweep_cons env k value ks st hval]
    obtain ⟨-, r, hlog, hcache⟩ := freshDnsVisit_cases env k value st
    generalize (freshDnsVisit env k value st).2 = st1 at hlog hcache ⊢
    have hkeys : ∀ x, x ∈ st1.1.cache ↔ x ∈ st.1.cache := by
      intro x
      rcases hcache with ⟨_, hc⟩ | ⟨_, hc⟩
      · rw [hc, SyncMap.Store, AList.mem_insert]
        constructor
        · rintro (rfl | hx)
          · exact hk
          · exact hx
        · exact Or.inr
      · rw [hc]
    have hother : ∀ x, x ≠ k → st1.1.cache.Load x = st.1.cache.Load x := by
      intro x hx
      rcases hcache with ⟨_, hc⟩ | ⟨_, hc⟩
      · rw [hc]
        exact AList.lookup_insert_ne hx
      · rw [hc]
    have hnd1 : ks.Nodup := (List.nodup_cons.mp hnd).2
    have hknot : k ∉ ks := (List.nodup_cons.mp hnd).1
    obtain ⟨visits, h1, h2, h3, h4, h5⟩ :=
      ih st1 (fun x hx => (hkeys x).mpr (hmem x (List.mem_cons_of_mem _ hx))) hnd1
    refine ⟨(k, r) :: visits, ?_, ?_, ?_, ?_, ?_⟩
    · rw [h1, hlog]
      simp
    · simp [h2]
    · intro x
      rw [h3 x, hkeys x]
    · intro x hx
      rw [h4 x (fun hin => hx (List.mem_cons_of_mem _ hin)),
        hother x (fun e => hx (e ▸ List.mem_cons_self _ _))]
    · intro v hv
      rcases List.mem_cons.mp hv with rfl | hv
      · rw [h4 k hknot]
        rcases hcache with ⟨hn, hc⟩ | ⟨hn, hc⟩
        · refine ⟨fun _ => ?_, fun hne => absurd hn hne⟩
          rw [hc]
          exact AList.lookup_insert _
        · refine ⟨fun he => absurd he hn, fun _ => ?_⟩
          rw [hc]
      · have hvin : v.1 ∈ ks := by
          rw [← h2]
          exact List.mem_map_of_mem _ hv
        have hvk : v.1 ≠ k := fun e => hknot (e ▸ hvin)
        obtain ⟨ha, hb⟩ := h5 v hv
        exact ⟨ha, fun hne => by rw [hb hne, hother v.1 hvk]⟩

/-! ## What the operations do to an entry -/

theorem Get_Load_kept (env : Env) (d : DnsCache) (w : World) (host other a : String)
    (h : d.cache.Load host = some a) :
    (Get env d w other).2.1.cache.Load host = some a := by
  unfold Get
  split
  · exact h
  · rename_i hmiss
    have hne : host ≠ other := fun e => by
      rw [e, hmiss] at h
      exact absurd h (by simp)
    show (resolveIpBody env d w other).2.1.cache.Load host = some a
    rcases (resolveIpBody_cases env d w other).2 with ⟨_, hc⟩ | ⟨_, hc⟩
    · rw [hc, ← h]
      exact AList.lookup_insert_ne hne
    · rw [hc, h]

theorem dialFunc_Load_kept (env : Env) (d : DnsCache) (w : World) (network addr host a : String)
    (h : d.cache.Load host = some a) :
    (dialFunc env d w network addr).2.1.cache.Load host = some a := by
  unfold dialFunc
  split
  · rename_i other port _
    have hG := Get_Load_kept env d w host other a h
    rcases hg : Get env d w other with ⟨⟨ip, _ | err⟩, d1, w1⟩ <;>
      rw [hg] at hG <;> simpa using hG
  · exact h

theorem step_method_Load_kept (env : Env) (s : Instance) (op : Op) (host a : String)
    (h : s.d.cache.Load host = some a) (hm : op.isMethod = true)
    (hc : op.isClear host = false) :
    (step env s op).d.cache.Load host = some a := by
  cases op with
  | Get other => exact Get_Load_kept env s.d s.w host other a h
  | Clear other =>
    have hne : host ≠ other := fun e => by simp [Op.isClear, e] at hc
    show (s.d.cache.erase other).lookup host = some a
    rw [AList.lookup_erase_ne hne]
    exact h
  | SetCustomeResolver f => exact h
  | Destroy => exact h
  | dial network addr => exact dialFunc_Load_kept env s.d s.w network addr host a h
  | period => simp [Op.isMethod] at hm
  | recv order => simp [Op.isMethod] at hm
  | visit => simp [Op.isMethod] at hm

theorem run_idle_Load_kept (env : Env) (ops : List Op) (host a : String) :
    ∀ s : Instance, s.d.timer.stopped = true → s.C = false → s.loop = none →
      s.d.cache.Load host = some a → (∀ op ∈ ops, op.isClear host = false) →
      (run env ops s).d.cache.Load host = some a := by
  induction ops with
  | nil => intro s _ _ _ h _; exact h
  | cons op ops ih =>
    intro s hs hC hl h hclear
    obtain ⟨⟨h1, h2, h3⟩, hno⟩ := step_idle env s op hs hC hl
    have hkept : (step env s op).d.cache.Load host = some a := by
      cases hop : op.isMethod with
      | true =>
        exact step_method_Load_kept env s op host a h hop (hclear op (List.mem_cons_self _ _))
      | false => rw [hno hop]; exact h
    exact ih (step env s op) h1 h2 h3 hkept
      (fun o ho => hclear o (List.mem_cons_of_mem _ ho))

theorem mem_of_Load {m : SyncMap} {host a : String} (h : m.Load host = some a) : host ∈ m :=
  AList.lookup_isSome.mp (by rw [show m.lookup host = some a from h]; rfl)

theorem Load_of_mem {m : SyncMap} {host : String} (h : host ∈ m) : ∃ a, m.Load host = some a := by
  cases hl : m.Load host with
  | none => exact absurd h (AList.lookup_eq_none.mp hl)
  | some a => exact ⟨a, rfl⟩

theorem freshDnsStep_mem (env : Env) (s : Instance) (host : String) (h : host ∈ s.d.cache) :
    host ∈ (freshDnsStep env s).d.cache := by
  unfold freshDnsStep
  split
  · exact h
  · exact h
  · rename_i k ks _
    split
    · exact h
    · rename_i v _
      obtain ⟨-, r, -, hc⟩ := freshDnsVisit_cases env k v (s.d, s.w)
      have hmem : host ∈ (freshDnsVisit env k v (s.d, s.w)).2.1.cache := by
        rcases hc with ⟨_, hc⟩ | ⟨_, hc⟩
        · rw [hc]
          exact (AList.mem_insert _).mpr (Or.inr h)
        · rw [hc]
          exact h
      rcases hv : freshDnsVisit env k v (s.d, s.w) with ⟨_ | _, d1, w1⟩ <;>
        rw [hv] at hmem <;> simpa using hmem

theorem step_mem (env : Env) (s : Instance) (op : Op) (host : String)
    (h : host ∈ s.d.cache) (hc : op.isClear host = false) :
    host ∈ (step env s op).d.cache := by
  obtain ⟨a, ha⟩ := Load_of_mem h
  cases hm : op.isMethod with
  | true => exact mem_of_Load (step_method_Load_kept env s op host a ha hm hc)
  | false =>
    cases op with
    | period => exact h
    | recv order =>
      show host ∈ (freshDnsRecv order s).d.cache
      rw [freshDnsRecv_d]
      exact h
    | visit => exact freshDnsStep_mem env s host h
    | _ => simp [Op.isMethod] at hm

theorem run_mem (env : Env) (ops : List Op) (host : String) :
    ∀ s : Instance, host ∈ s.d.cache → (∀ op ∈ ops, op.isClear host = false) →
      host ∈ (run env ops s).d.cache := by
  induction ops with
  | nil => intro s h _; exact h
  | cons op ops ih =>
    intro s h hclear
    exact ih (step env s op) (step_mem env s op host h (hclear op (List.mem_cons_self _ _)))
      (fun o ho => hclear o (List.mem_cons_of_mem _ ho))

/-! ## A sweep in progress does not look at the ticker -/

theorem resolveIpSystem_Destroy (env : Env) (d : DnsCache) (w : World) (host : String) :
    resolveIpSystem env (Destroy d) w host =
      ((resolveIpSystem env d w host).1, Destroy (resolveIpSystem env d w host).2.1,
        (resolveIpSystem env d w host).2.2) := by
  unfold resolveIpSystem
  cases env.net_ResolveIPAddr w.resolveCalls "ip4" host <;> rfl

theorem resolveIpBody_Destroy (env : Env) (d : DnsCache) (w : World) (host : String) :
    resolveIpBody env (Destroy d) w host =
      ((resolveIpBody env d w host).1, Destroy (resolveIpBody env d w host).2.1,
        (resolveIpBody env d w host).2.2) := by
  rcases d with ⟨cache, fi, timer, _ | f⟩
  · exact resolveIpSystem_Destroy env _ w host
  · simp only [resolveIpBody, Destroy]
    rcases hf : f w.customCalls host with ⟨ip, _ | e⟩
    · rfl
    · exact resolveIpSystem_Destroy env ⟨cache, fi, timer, some f⟩
        { w with customCalls := w.customCalls ++ [host] } host

theorem freshDnsVisit_Destroy (env : Env) (key value : String) (d : DnsCache) (w : World) :
    freshDnsVisit env key value (Destroy d, w) =
      ((freshDnsVisit env key value (d, w)).1, Destroy (freshDnsVisit env key value (d, w)).2.1,
        (freshDnsVisit env key value (d, w)).2.2) := by
  unfold freshDnsVisit resolveIp
  simp only [resolveIpBody_Destroy]
  rcases resolveIpBody env d w key with ⟨⟨ip, _ | err⟩, d1, w1⟩ <;> rfl

theorem freshDnsStep_visit (env : Env) (s : Instance) (k value : String) (ks : List String)
    (hl : s.loop = some (k :: ks)) (hv : s.d.cache.Load k = some value) :
    freshDnsStep env s =
      { s with d := (freshDnsVisit env k value (s.d, s.w)).2.1,
               w := (freshDnsVisit env k value (s.d, s.w)).2.2, loop := some ks } := by
  have hflag := (freshDnsVisit_cases env k value (s.d, s.w)).1
  rcases hvis : freshDnsVisit env k value (s.d, s.w) with ⟨b, d1, w1⟩
  rw [hvis] at hflag
  simp only at hflag
  subst hflag
  simp [freshDnsStep, hl, hv, hvis]

theorem freshDnsStep_skip (env : Env) (s : Instance) (k : String) (ks : List String)
    (hl : s.loop = some (k :: ks)) (hv : s.d.cache.Load k = none) :
    freshDnsStep env s = { s with loop := some ks } := by
  simp [freshDnsStep, hl, hv]

theorem freshDnsStep_Destroy (env : Env) (s : Instance) :
    step env (step env s .Destroy) .visit = step env (step env s .visit) .Destroy := by
  rcases s with ⟨d, w, c, loop⟩
  simp only [step]
  rcases loop with _ | ⟨_ | ⟨k, ks⟩⟩
  · simp [freshDnsStep]
  · simp [freshDnsStep]
  · cases hL : d.cache.Load k with
    | none =>
      rw [freshDnsStep_skip env ⟨Destroy d, w, c, some (k :: ks)⟩ k ks rfl hL,
        freshDnsStep_skip env ⟨d, w, c, some (k :: ks)⟩ k ks rfl hL]
    | some v =>
      rw [freshDnsStep_visit env ⟨Destroy d, w, c, some (k :: ks)⟩ k v ks rfl hL,
        freshDnsStep_visit env ⟨d, w, c, some (k :: ks)⟩ k v ks rfl hL]
      simp only [freshDnsVisit_Destroy]

/-! ## A sweep that is left alone -/

theorem run_visits (env : Env) (c : Bool) (order : List String) :
    ∀ (d : DnsCache) (w : World),
      run env (List.replicate (order.length + 1) .visit) ⟨d, w, c, some order⟩ =
        ⟨(freshDnsSweep env order (d, w)).1, (freshDnsSweep env order (d, w)).2, c, none⟩ := by
  induction order with
  | nil =>
    intro d w
    simp [run, step, freshDnsStep, freshDnsSweep, SyncMap.Range]
  | cons k ks ih =>
    intro d w
    have hrun : run env (List.replicate ((k :: ks).length + 1) .visit) ⟨d, w, c, some (k :: ks)⟩ =
        run env (List.replicate (ks.length + 1) .visit)
          (freshDnsStep env ⟨d, w, c, some (k :: ks)⟩) := by
      simp [run, List.replicate_succ, step]
    rw [hrun]
    cases hL : d.cache.Load k with
    | none =>
      rw [freshDnsStep_skip env ⟨d, w, c, some (k :: ks)⟩ k ks rfl hL]
      have hsw : freshDnsSweep env (k :: ks) (d, w) = freshDnsSweep env ks (d, w) := by
        simp [freshDnsSweep, SyncMap.Range, hL]
      rw [hsw]
      exact ih d w
    | some v =>
      rw [freshDnsStep_visit env ⟨d, w, c, some (k :: ks)⟩ k v ks rfl hL,
        freshDnsSweep_cons env k v ks (d, w) hL]
      exact ih _ _

theorem run_period_alone (env : Env) (order : List String) (d : DnsCache) (w : World) :
    run env (.period :: .recv order :: List.replicate (order.length + 1) .visit)
        (Instance.start d w) =
      ⟨(tick env order (d, w)).1, (tick env order (d, w)).2, false, none⟩ := by
  cases hs : d.timer.sends with
  | true =>
    have h1 : run env (.period :: .recv order :: List.replicate (order.length + 1) .visit)
        (Instance.start d w) =
        run env (List.replicate (order.length + 1) .visit) ⟨d, w, false, some order⟩ := by
      simp [run, step, Instance.start, freshDnsRecv, hs]
    rw [h1, run_visits env false order d w]
    simp [tick, hs]
  | false =>
    have hstep : ∀ n : Nat, run env (List.replicate n .visit) ⟨d, w, false, none⟩ =
        ⟨d, w, false, none⟩ := by
      intro n
      induction n with
      | zero => rfl
      | succ n ih =>
        rw [List.replicate_succ]
        simpa [run, step, freshDnsStep] using ih
    have h1 : run env (.period :: .recv order :: List.replicate (order.length + 1) .visit)
        (Instance.start d w) =
        run env (List.replicate (order.length + 1) .visit) ⟨d, w, false, none⟩ := by
      simp [run, step, Instance.start, freshDnsRecv, hs]
    rw [h1, hstep]
    simp [tick, hs]

/-! ## Claims -/

/-- C1 (cache hit): when the cache holds address `a` for `host`, `Get host`
returns `(a, nil)` and leaves the receiver and the world as they were, so
neither resolver is invoked and the cache is unchanged. -/
theorem Get_hit (env : Env) (d : DnsCache) (w : World) (host a : String)
    (h : d.cache.Load host = some a) :
    Get env d w host = ((a, none), d, w) := by
  simp [Get, h]

theorem Get_hit_witness :
    oneEntry.cache.Load "example.test" = some "1.2.3.4" ∧
    Get deadEnv oneEntry World.init "example.test" = (("1.2.3.4", none), oneEntry, World.init) :=
  ⟨by decide, Get_hit deadEnv oneEntry World.init "example.test" "1.2.3.4" (by decide)⟩

/-- C2 (miss then hit): with no entry for `host`, no custom resolver and a
system resolver that answers `a`, `Get host` returns the text of `a` and stores
it under `host`; a second `Get host` returns the same text and changes nothing,
so that the two calls together made exactly one call to the system resolver and
none to a custom resolver. -/
theorem Get_miss_then_hit (env : Env) (d : DnsCache) (w : World) (host : String) (a : IPAddr)
    (hmiss : d.cache.Load host = none) (hcustom : d.customResolver = none)
    (hsys : env.net_ResolveIPAddr w.resolveCalls "ip4" host = .ok a) :
    (Get env d w host).1 = (a.IP.String, none) ∧
    (Get env d w host).2.1.cache = d.cache.Store host a.IP.String ∧
    (Get env d w host).2.1.cache.Load host = some a.IP.String ∧
    Get env (Get env d w host).2.1 (Get env d w host).2.2 host =
      ((a.IP.String, none), (Get env d w host).2) ∧
    (Get env (Get env d w host).2.1 (Get env d w host).2.2 host).2.2.resolveCalls =
      w.resolveCalls ++ [("ip4", host)] ∧
    (Get env (Get env d w host).2.1 (Get env d w host).2.2 host).2.2.customCalls =
      w.customCalls := by
  have hg : Get env d w host =
      ((a.IP.String, none), { d with cache := d.cache.Store host a.IP.String },
        { w with resolveCalls := w.resolveCalls ++ [("ip4", host)],
                 resolveIpReturns := w.resolveIpReturns ++ [(host, (a.IP.String, none))] }) := by
    simp [Get, hmiss, resolveIp, resolveIpBody, hcustom, resolveIpSystem, hsys]
  have hl : (d.cache.Store host a.IP.String).Load host = some a.IP.String := by
    simp [SyncMap.Store, SyncMap.Load, AList.lookup_insert]
  rw [hg]
  refine ⟨rfl, rfl, hl, ?_, ?_, ?_⟩
  · simp [Get, hl]
  · simp [Get, hl]
  · simp [Get, hl]

theorem Get_miss_then_hit_witness :
    emptyCache.cache.Load "example.test" = none ∧
    (Get twoAnswersEnv emptyCache World.init "example.test").1 = ("1.2.3.4", none) ∧
    (Get twoAnswersEnv (Get twoAnswersEnv emptyCache World.init "example.test").2.1
      (Get twoAnswersEnv emptyCache World.init "example.test").2.2 "example.test").2.2.resolveCalls
      = [("ip4", "example.test")] :=
  have h := Get_miss_then_hit twoAnswersEnv emptyCache World.init "example.test" ⟨⟨"1.2.3.4"⟩⟩
    (by decide) rfl rfl
  ⟨by decide, h.1, h.2.2.2.2.1⟩

/-- C3 (custom resolver short-circuit): when the registered custom resolver
answers `(a, nil)` for `host`, `resolveIp host` returns `(a, nil)`, stores
`a` under `host` and makes no call to the system resolver; `Get host` on a miss
does the same. -/
theorem resolveIp_custom_ok (env : Env) (d : DnsCache) (w : World) (host a : String)
    (f : Resolver) (hreg : d.customResolver = some f)
    (hok : f w.customCalls host = (a, none)) :
    resolveIp env d w host =
      ((a, none), { d with cache := d.cache.Store host a },
        { w with customCalls := w.customCalls ++ [host],
                 resolveIpReturns := w.resolveIpReturns ++ [(host, (a, none))] }) ∧
    (resolveIp env d w host).2.1.cache.Load host = some a ∧
    (resolveIp env d w host).2.2.resolveCalls = w.resolveCalls ∧
    (d.cache.Load host = none → Get env d w host = resolveIp env d w host) := by
  have hr : resolveIp env d w host =
      ((a, none), { d with cache := d.cache.Store host a },
        { w with customCalls := w.customCalls ++ [host],
                 resolveIpReturns := w.resolveIpReturns ++ [(host, (a, none))] }) := by
    simp [resolveIp, resolveIpBody, hreg, hok]
  refine ⟨hr, ?_, ?_, ?_⟩
  · rw [hr]; simp [SyncMap.Store, SyncMap.Load, AList.lookup_insert]
  · rw [hr]
  · intro hmiss; simp [Get, hmiss]

theorem resolveIp_custom_ok_witness :
    (resolveIp deadEnv (SetCustomeResolver emptyCache (some fixedResolver)) World.init
        "example.test").1 = ("9.9.9.9", none) ∧
    (resolveIp deadEnv (SetCustomeResolver emptyCache (some fixedResolver)) World.init
        "example.test").2.2.resolveCalls = [] :=
  have h := resolveIp_custom_ok deadEnv (SetCustomeResolver emptyCache (some fixedResolver))
    World.init "example.test" "9.9.9.9" fixedResolver rfl (by decide)
  ⟨congrArg Prod.fst h.1, h.2.2.1⟩

/-- C4 (fallback on custom failure): when the registered custom resolver
answers with an error for `host`, `resolveIp host` makes one call to the system
resolver, and its returned pair and the cache it leaves are those of `resolveIp host`
run with no custom resolver registered: they are fixed by the answer of the
system resolver alone, whatever the custom resolver and its error were. -/
theorem resolveIp_custom_fail (env : Env) (d : DnsCache) (w : World) (host x : String)
    (f : Resolver) (e : GoError) (hreg : d.customResolver = some f)
    (hfail : f w.customCalls host = (x, some e)) :
    (resolveIp env d w host).2.2.resolveCalls = w.resolveCalls ++ [("ip4", host)] ∧
    (resolveIp env d w host).1 = (resolveIp env (SetCustomeResolver d none) w host).1 ∧
    (resolveIp env d w host).2.1.cache =
      (resolveIp env (SetCustomeResolver d none) w host).2.1.cache ∧
    (resolveIp env d w host).1 =
      (match env.net_ResolveIPAddr w.resolveCalls "ip4" host with
        | .error err => ("", some (fmt_Errorf_w ("resolve ip of " ++ host ++ " error:") err))
        | .ok ip => (ip.IP.String, none)) := by
  cases hs : env.net_ResolveIPAddr w.resolveCalls "ip4" host <;>
    simp [resolveIp, resolveIpBody, hreg, hfail, resolveIpSystem, hs, SetCustomeResolver]

theorem resolveIp_custom_fail_witness :
    (resolveIp twoAnswersEnv (SetCustomeResolver emptyCache (some fixedResolver)) World.init
        "other.test").2.2.resolveCalls = [("ip4", "other.test")] ∧
    (resolveIp twoAnswersEnv (SetCustomeResolver emptyCache (some fixedResolver)) World.init
        "other.test").1 =
      (resolveIp twoAnswersEnv (SetCustomeResolver (SetCustomeResolver emptyCache
        (some fixedResolver)) none) World.init "other.test").1 :=
  have h := resolveIp_custom_fail twoAnswersEnv
    (SetCustomeResolver emptyCache (some fixedResolver)) World.init "other.test" ""
    fixedResolver (.plain "custom: unknown host") rfl (by decide)
  ⟨h.1, h.2.1⟩

/-- C5 (resolution failure): with no entry for `host`, a system resolver that
fails with `e`, and a custom resolver that is absent or fails too, `Get host`
returns the empty address and an error whose message is "resolve ip of ",
`host`, " error:" and the message of `e`, and whose cause is `e`; the receiver is
left as it was, so the cache is unchanged and still has no entry for `host`. -/
theorem Get_resolve_error (env : Env) (d : DnsCache) (w : World) (host : String) (e : GoError)
    (hmiss : d.cache.Load host = none)
    (hsys : env.net_ResolveIPAddr w.resolveCalls "ip4" host = .error e)
    (hcustom : d.customResolver = none ∨
      ∃ f x e', d.customResolver = some f ∧ f w.customCalls host = (x, some e')) :
    ∃ err, (Get env d w host).1 = ("", some err) ∧
      err.Error = "resolve ip of " ++ host ++ " error:" ++ e.Error ∧
      err.Unwrap = some e ∧
      (Get env d w host).2.1 = d ∧
      (Get env d w host).2.1.cache.Load host = none := by
  refine ⟨fmt_Errorf_w ("resolve ip of " ++ host ++ " error:") e, ?_, rfl, rfl, ?_⟩
  · rcases hcustom with hc | ⟨f, x, e', hc, hf⟩ <;>
      simp [Get, hmiss, resolveIp, resolveIpBody, hc, resolveIpSystem, hsys, *]
  · rcases hcustom with hc | ⟨f, x, e', hc, hf⟩ <;>
      simp [Get, hmiss, resolveIp, resolveIpBody, hc, resolveIpSystem, hsys, *]

theorem Get_resolve_error_witness :
    ∃ err, (Get deadEnv (SetCustomeResolver emptyCache (some fixedResolver)) World.init
        "other.test").1 = ("", some err) ∧
      err.Error = "resolve ip of " ++ "other.test" ++ " error:" ++
        (GoError.plain "no such host").Error ∧
      err.Unwrap = some (.plain "no such host") ∧
      (Get deadEnv (SetCustomeResolver emptyCache (some fixedResolver)) World.init
        "other.test").2.1 = SetCustomeResolver emptyCache (some fixedResolver) ∧
      (Get deadEnv (SetCustomeResolver emptyCache (some fixedResolver)) World.init
        "other.test").2.1.cache.Load "other.test" = none :=
  Get_resolve_error deadEnv (SetCustomeResolver emptyCache (some fixedResolver)) World.init
    "other.test" (.plain "no such host") (by decide) rfl
    (Or.inr ⟨fixedResolver, "", .plain "custom: unknown host", rfl, by decide⟩)

/-- C6 (Clear): after `Clear host` the cache has no entry for `host`, every
other host has the entry it had, and clearing a host that has no entry changes
nothing; a following `Get host` is a call of `resolveIp host`, so it returns a
fresh result and not the removed value. -/
theorem Clear_spec (env : Env) (d : DnsCache) (w : World) (host : String) :
    (Clear d host).cache.Load host = none ∧
    (∀ other, other ≠ host → (Clear d host).cache.Load other = d.cache.Load other) ∧
    (d.cache.Load host = none → Clear d host = d) ∧
    Get env (Clear d host) w host = resolveIp env (Clear d host) w host := by
  have h1 : (Clear d host).cache.Load host = none := by
    simp [Clear, SyncMap.Delete, SyncMap.Load, AList.lookup_erase]
  refine ⟨h1, ?_, ?_, ?_⟩
  · intro other hne
    simp [Clear, SyncMap.Delete, SyncMap.Load, AList.lookup_erase_ne hne]
  · intro hnone
    have hnot : host ∉ d.cache := AList.lookup_eq_none.mp hnone
    have he : d.cache.erase host = d.cache := by
      apply AList.ext
      show List.kerase host d.cache.entries = d.cache.entries
      exact List.kerase_of_not_mem_keys hnot
    cases d
    simp only [Clear, SyncMap.Delete] at *
    simp [he]
  · simp [Get, h1]

/-- C8 (dial rejects malformed addresses): splitting `addr` at ':' yields one
part more than `addr` has colons.  When the parts are not exactly two, `dialFunc`
returns no connection and the error "invaild addr:" followed by `addr`, and
leaves the receiver and the world as they were: no resolver is invoked, no
connect attempt is made, the cache is unchanged.  When `addr` has exactly one
colon that outcome does not occur: either a connect attempt is recorded, or the
error returned wraps a resolution error. -/
theorem dialFunc_invalid (env : Env) (d : DnsCache) (w : World) (network addr : String) :
    (strings_Split addr ':').length = addr.toList.count ':' + 1 ∧
    ((strings_Split addr ':').length ≠ 2 →
      dialFunc env d w network addr =
        ((none, some (.plain ("invaild addr:" ++ addr))), d, w)) ∧
    (addr.toList.count ':' = 1 →
      dialFunc env d w network addr ≠
        ((none, some (.plain ("invaild addr:" ++ addr))), d, w) ∧
      ((∃ target, (dialFunc env d w network addr).2.2.dialCalls =
          w.dialCalls ++ [("tcp4", target)]) ∨
        ∃ msg cause, (dialFunc env d w network addr).1 = (none, some (.wrapped msg cause)))) := by
  have hlen : (strings_Split addr ':').length = addr.toList.count ':' + 1 := by
    simp [strings_Split, splitChars_length]
  refine ⟨hlen, ?_, ?_⟩
  · intro hne
    unfold dialFunc
    split
    · rename_i host port hsp
      rw [hsp] at hne
      exact absurd rfl hne
    · rfl
  · intro hone
    rw [hone] at hlen
    obtain ⟨host, port, hsp⟩ : ∃ host port, strings_Split addr ':' = [host, port] := by
      match hs : strings_Split addr ':', hlen with
      | [host, port], _ => exact ⟨host, port, rfl⟩
    have hd := Get_dialCalls env d w host
    rcases hG : Get env d w host with ⟨⟨ip, _ | err⟩, d1, w1⟩
    · rw [hG] at hd
      rw [dialFunc_of_Get_ok env d w network addr host port ip d1 w1 hsp hG]
      have hd1 : w1.dialCalls = w.dialCalls := hd
      refine ⟨?_, Or.inl ⟨ip ++ ":" ++ port, by simp [hd1]⟩⟩
      intro heq
      have hw := congrArg (fun o => o.2.2.dialCalls) heq
      simp [hd1] at hw
    · rw [dialFunc_of_Get_error env d w network addr host port ip err d1 w1 hsp hG]
      exact ⟨by simp, Or.inr ⟨_, _, rfl⟩⟩

theorem dialFunc_invalid_witness :
    dialFunc deadEnv oneEntry World.init "tcp" "badaddr" =
      ((none, some (.plain ("invaild addr:" ++ "badaddr"))), oneEntry, World.init) ∧
    dialFunc deadEnv oneEntry World.init "tcp" "a:b:c" =
      ((none, some (.plain ("invaild addr:" ++ "a:b:c"))), oneEntry, World.init) ∧
    dialFunc deadEnv oneEntry World.init "tcp" "example.test:80" ≠
      ((none, some (.plain ("invaild addr:" ++ "example.test:80"))), oneEntry, World.init) :=
  ⟨(dialFunc_invalid deadEnv oneEntry World.init "tcp" "badaddr").2.1 (by decide),
   (dialFunc_invalid deadEnv oneEntry World.init "tcp" "a:b:c").2.1 (by decide),
   ((dialFunc_invalid deadEnv oneEntry World.init "tcp" "example.test:80").2.2 (by decide)).1⟩

/-- C9 (dial on a well-formed address): an address with exactly one colon is
`host ++ ":" ++ port`, and for every `network` the outcome of `dialFunc` is fixed
by `Get host`.  If `Get` returns the error `err`, `dialFunc` returns no
connection and an error that wraps `err`, in the state `Get` left, with no
connect attempt made.  If `Get` returns the address `ip`, `dialFunc` makes one
connect attempt, on "tcp4" to `ip ++ ":" ++ port`, and returns what that attempt
returned. -/
theorem dialFunc_wellformed (env : Env) (d : DnsCache) (w : World) (network addr : String)
    (hone : addr.toList.count ':' = 1) :
    ∃ host port, addr = host ++ ":" ++ port ∧
      (∀ x err d1 w1, Get env d w host = ((x, some err), d1, w1) →
        ∃ e, dialFunc env d w network addr = ((none, some e), d1, w1) ∧
          e.Unwrap = some err ∧ e.Error = "resolve ip error:" ++ err.Error ∧
          w1.dialCalls = w.dialCalls) ∧
      (∀ ip d1 w1, Get env d w host = ((ip, none), d1, w1) →
        dialFunc env d w network addr =
          (env.net_Dial w.dialCalls "tcp4" (ip ++ ":" ++ port), d1,
            { w1 with dialCalls := w.dialCalls ++ [("tcp4", ip ++ ":" ++ port)] })) := by
  obtain ⟨host, port, hadd, hsp⟩ := exists_pair_of_count_one addr hone
  refine ⟨host, port, hadd, ?_, ?_⟩
  · intro x err d1 w1 hG
    have hd := Get_dialCalls env d w host
    rw [hG] at hd
    exact ⟨_, dialFunc_of_Get_error env d w network addr host port x err d1 w1 hsp hG,
      rfl, rfl, hd⟩
  · intro ip d1 w1 hG
    have hd := Get_dialCalls env d w host
    rw [hG] at hd
    have hd1 : w1.dialCalls = w.dialCalls := hd
    rw [dialFunc_of_Get_ok env d w network addr host port ip d1 w1 hsp hG, hd1]

theorem dialFunc_wellformed_witness :
    "10.0.0.5:8080".toList.count ':' = 1 ∧
    (dialFunc echoEnv emptyCache World.init "tcp" "10.0.0.5:8080").2.2.dialCalls =
      [("tcp4", "10.0.0.5:8080")] ∧
    ∃ host port, "10.0.0.5:8080" = host ++ ":" ++ port ∧
      (∀ ip d1 w1, Get echoEnv emptyCache World.init host = ((ip, none), d1, w1) →
        dialFunc echoEnv emptyCache World.init "tcp" "10.0.0.5:8080" =
          (echoEnv.net_Dial World.init.dialCalls "tcp4" (ip ++ ":" ++ port), d1,
            { w1 with dialCalls := World.init.dialCalls ++ [("tcp4", ip ++ ":" ++ port)] })) :=
  ⟨by decide, by decide,
    (dialFunc_wellformed echoEnv emptyCache World.init "tcp" "10.0.0.5:8080" (by decide)).imp
      fun _ h => h.imp fun _ h => ⟨h.1, h.2.2⟩⟩

/-- C7 (refresh sweep): while the ticker runs, one period of it is one sweep.
A sweep that walks the keys of the cache in any order calls `resolveIp` exactly
once for every key present and for no other host; afterwards the cache has the
same keys; a key whose call returned `(ip, nil)` maps to `ip`, and a key whose
call returned an error maps to what it mapped to before the sweep.  In
the scenario where the system resolver answers "1.2.3.4" and then "5.6.7.8" for
"example.test", `Get` on a new cache returns "1.2.3.4", and after one period of
the ticker `Get` returns "5.6.7.8", the system resolver having been called twice
in all. -/
theorem freshDnsSweep_spec :
    (∀ (env : Env) (d : DnsCache) (w : World) (order : List String),
      order.Perm d.cache.keys →
      (d.timer.stopped = false → tick env order (d, w) = freshDnsSweep env order (d, w)) ∧
      ∃ visits : List (String × String × Option GoError),
        (freshDnsSweep env order (d, w)).2.resolveIpReturns = w.resolveIpReturns ++ visits ∧
        visits.map Prod.fst = order ∧
        (∀ host, (visits.map Prod.fst).count host = if host ∈ d.cache.keys then 1 else 0) ∧
        (freshDnsSweep env order (d, w)).1.cache.keys.Perm d.cache.keys ∧
        ∀ host ip err, (host, ip, err) ∈ visits →
          (err = none → (freshDnsSweep env order (d, w)).1.cache.Load host = some ip) ∧
          (err ≠ none →
            (freshDnsSweep env order (d, w)).1.cache.Load host = d.cache.Load host)) ∧
    (NewDnsCache 1 = some emptyCache ∧
      (Get twoAnswersEnv emptyCache World.init "example.test").1 = ("1.2.3.4", none) ∧
      (Get twoAnswersEnv scenarioAfterTick.1 scenarioAfterTick.2 "example.test").1 =
        ("5.6.7.8", none) ∧
      (Get twoAnswersEnv scenarioAfterTick.1 scenarioAfterTick.2 "example.test").2.2.resolveCalls =
        [("ip4", "example.test"), ("ip4", "example.test")] ∧
      (Get twoAnswersEnv scenarioAfterTick.1 scenarioAfterTick.2 "example.test").2.2.customCalls =
        []) := by
  refine ⟨?_, rfl, by decide, by decide, by decide, by decide⟩
  intro env d w order hperm
  have hnd : order.Nodup := (hperm.nodup_iff).mpr d.cache.keys_nodup
  have hmem : ∀ k ∈ order, k ∈ (d, w).1.cache := fun k hk =>
    AList.mem_keys.mpr (hperm.mem_iff.mp hk)
  obtain ⟨visits, h1, h2, h3, -, h5⟩ := freshDnsSweep_visits env order (d, w) hmem hnd
  refine ⟨fun hrun => by simp [tick, Ticker.sends, hrun], visits, h1, h2, ?_, ?_, ?_⟩
  · intro host
    rw [h2]
    by_cases hin : host ∈ d.cache.keys
    · rw [if_pos hin]
      exact List.count_eq_one_of_mem hnd (hperm.mem_iff.mpr hin)
    · rw [if_neg hin]
      exact List.count_eq_zero.mpr (fun hm => hin (hperm.mem_iff.mp hm))
  · refine (List.perm_ext_iff_of_nodup (AList.keys_nodup _) d.cache.keys_nodup).mpr ?_
    intro k
    exact (AList.mem_keys.symm.trans (h3 k)).trans AList.mem_keys
  · intro host ip err hv
    exact h5 (host, ip, err) hv

theorem freshDnsSweep_spec_witness :
    twoEntries.cache.keys = ["example.test", "gone.test"] ∧
    (freshDnsSweep twoAnswersEnv twoEntries.cache.keys (twoEntries, World.init)).2.resolveIpReturns
      = [("example.test", "1.2.3.4", none),
         ("gone.test", "",
            some (.wrapped "resolve ip of gone.test error:no such host" (.plain "no such host")))] ∧
    (freshDnsSweep twoAnswersEnv twoEntries.cache.keys (twoEntries, World.init)).1.cache.Load
      "example.test" = some "1.2.3.4" ∧
    (freshDnsSweep twoAnswersEnv twoEntries.cache.keys (twoEntries, World.init)).1.cache.Load
      "gone.test" = some "6.6.6.6" ∧
    (freshDnsSweep twoAnswersEnv twoEntries.cache.keys
      (twoEntries, World.init)).1.cache.keys.Perm twoEntries.cache.keys :=
  have h := freshDnsSweep_spec.1 twoAnswersEnv twoEntries World.init twoEntries.cache.keys
    (List.Perm.refl _)
  ⟨by decide, by decide, by decide, by decide,
    h.2.elim fun _ hv => hv.2.2.2.1⟩

/-- C10 as stated fails on a sweep in progress.  On a new cache "example.test"
is looked up and cached as "1.2.3.4", a period elapses and the loop of `freshDns`
enters its sweep; then `Destroy` is called and returns, and the ticker is stopped.
With no method called after that, the loop visits its key: the system resolver is
called once more, `resolveIp` stores "5.6.7.8", and `Get` no longer returns the
address cached before `Destroy`.  So it is not true that after `Destroy` the steps
of the goroutine leave the world and the cached entries as they were. -/
theorem Destroy_sweep_in_progress :
    sweeping.d.cache.Load "example.test" = some "1.2.3.4" ∧
    sweeping.d.timer.stopped = false ∧
    sweepingDestroyed.d.timer.stopped = true ∧
    (step twoAnswersEnv sweepingDestroyed .visit).w.resolveCalls =
      sweepingDestroyed.w.resolveCalls ++ [("ip4", "example.test")] ∧
    (step twoAnswersEnv sweepingDestroyed .visit).w.resolveIpReturns =
      sweepingDestroyed.w.resolveIpReturns ++ [("example.test", "5.6.7.8", none)] ∧
    (Get twoAnswersEnv (step twoAnswersEnv sweepingDestroyed .visit).d
      (step twoAnswersEnv sweepingDestroyed .visit).w "example.test").1 = ("5.6.7.8", none) ∧
    ¬ (∀ (env : Env) (s : Instance) (ops : List Op) (host a : String),
        s.d.cache.Load host = some a → (∀ op ∈ ops, op.isMethod = false) →
        (run env ops (step env s .Destroy)).w = s.w ∧
        (run env ops (step env s .Destroy)).d.cache.Load host = some a) := by
  refine ⟨by decide, by decide, by decide, by decide, by decide, by decide, ?_⟩
  intro h
  have h1 := h twoAnswersEnv sweeping [.visit] "example.test" "1.2.3.4" (by decide)
    (by simp [Op.isMethod])
  exact absurd h1.2 (by decide)

/-- C10, amended (Destroy): `Destroy` stops the ticker and changes nothing
else: the cache map, the world, the channel and the progress of the loop of
`freshDns` are as they were.  Whatever follows (calls of `Get`, `Clear`,
`SetCustomeResolver`, `Destroy`, the dial function, periods of the ticker, steps
of the loop), the ticker stays stopped and its periods send nothing.  `Destroy`
does not interrupt a sweep in progress: a visit of the loop does after `Destroy`
what it would have done before it.  When no sweep is in progress and no tick
waits in the channel at the time of `Destroy`, no sweep runs afterwards: only the
calls of methods have an effect.  An entry cached before `Destroy` is returned by
`Get` right after it; its host keeps an entry as long as that host is not
cleared, and keeps the same address when no sweep was in progress or waiting.  A
second `Destroy` changes nothing. -/
theorem Destroy_spec (env : Env) (s : Instance) :
    ((step env s .Destroy).d.timer.stopped = true ∧
      (step env s .Destroy).d.cache = s.d.cache ∧
      (step env s .Destroy).w = s.w ∧
      (step env s .Destroy).C = s.C ∧
      (step env s .Destroy).loop = s.loop) ∧
    (∀ ops, (run env ops (step env s .Destroy)).d.timer.stopped = true) ∧
    (∀ ops, run env ops (step env s .Destroy) =
      run env (ops.filter fun op => !op.isPeriod) (step env s .Destroy)) ∧
    step env (step env s .Destroy) .visit = step env (step env s .visit) .Destroy ∧
    (s.C = false → s.loop = none →
      ∀ ops, run env ops (step env s .Destroy) =
        run env (ops.filter Op.isMethod) (step env s .Destroy)) ∧
    (∀ host a, s.d.cache.Load host = some a →
      Get env (step env s .Destroy).d s.w host = ((a, none), (step env s .Destroy).d, s.w) ∧
      (∀ ops, (∀ op ∈ ops, op.isClear host = false) →
        host ∈ (run env ops (step env s .Destroy)).d.cache) ∧
      (s.C = false → s.loop = none →
        ∀ ops, (∀ op ∈ ops, op.isClear host = false) →
          (run env ops (step env s .Destroy)).d.cache.Load host = some a)) ∧
    step env (step env s .Destroy) .Destroy = step env s .Destroy := by
  have hs : (step env s .Destroy).d.timer.stopped = true := rfl
  refine ⟨⟨rfl, rfl, rfl, rfl, rfl⟩, fun ops => (run_stopped env ops _ hs).1,
    fun ops => (run_stopped env ops _ hs).2, freshDnsStep_Destroy env s, ?_, ?_, rfl⟩
  · intro hC hl ops
    exact run_idle env ops _ hs hC hl
  · intro host a h
    have h1 : (step env s .Destroy).d.cache.Load host = some a := h
    refine ⟨by simp [Get, h1], ?_, ?_⟩
    · intro ops hclear
      exact run_mem env ops host _ (mem_of_Load h1) hclear
    · intro hC hl ops hclear
      exact run_idle_Load_kept env ops host a _ hs hC hl h1 hclear

theorem Destroy_spec_witness :
    oneEntry.cache.Load "example.test" = some "1.2.3.4" ∧
    Get deadEnv (Destroy oneEntry) World.init "example.test" =
      (("1.2.3.4", none), Destroy oneEntry, World.init) ∧
    run deadEnv [.period, .recv ["example.test"], .visit, .Get "example.test", .visit]
        (step deadEnv (Instance.start oneEntry World.init) .Destroy) =
      run deadEnv [.Get "example.test"]
        (step deadEnv (Instance.start oneEntry World.init) .Destroy) ∧
    (run deadEnv [.period, .recv ["example.test"], .visit, .Clear "other.test", .visit]
        (step deadEnv (Instance.start oneEntry World.init) .Destroy)).d.cache.Load
      "example.test" = some "1.2.3.4" ∧
    step twoAnswersEnv (step twoAnswersEnv sweeping .Destroy) .visit =
      step twoAnswersEnv (step twoAnswersEnv sweeping .visit) .Destroy :=
  ⟨by decide,
   ((Destroy_spec deadEnv (Instance.start oneEntry World.init)).2.2.2.2.2.1
     "example.test" "1.2.3.4" (by decide)).1,
   (Destroy_spec deadEnv (Instance.start oneEntry World.init)).2.2.2.2.1 rfl rfl
     [.period, .recv ["example.test"], .visit, .Get "example.test", .visit],
   ((Destroy_spec deadEnv (Instance.start oneEntry World.init)).2.2.2.2.2.1
     "example.test" "1.2.3.4" (by decide)).2.2 rfl rfl
     [.period, .recv ["example.test"], .visit, .Clear "other.test", .visit]
     (by simp [Op.isClear]),
   (Destroy_spec twoAnswersEnv sweeping).2.2.2.1⟩

end dnscache
